import Mathlib

/-!
Verification of the FEM relaxation-solver specification against the
repository's notebooks (`examples/manipulated_gradients.ipynb` and the
MIS customization notebook).  The notebook code is embedded directly;
parts of the solver library that are only called from the notebooks are
modelled from the specification, as flagged in the doc comments.
Rationals stand in for the tensor backend's floating-point numbers.
-/

namespace FEMSpec

/-! ### Rounding (the backend's `Tensor.round`, half-to-even) -/

/-- Rounding used by `p.round()` in the notebooks: round half to even,
the tie-breaking rule of the tensor backend. -/
def roundHalfEven (q : ℚ) : ℤ :=
  let f : ℤ := ⌊q⌋
  let r : ℚ := q - f
  if r < 1/2 then f
  else if 1/2 < r then f + 1
  else if f % 2 = 0 then f else f + 1

/-- `p.round()` on a single rational entry, back in ℚ. -/
def roundQ (q : ℚ) : ℚ := (roundHalfEven q : ℚ)

/-- `p.round()` applied entrywise to a marginal vector. -/
def roundVec (p : List ℚ) : List ℚ := p.map roundQ

/-! ### The MIS customization notebook's functions (source-embedded) -/

/-- The coupling matrix built inside `customize_expected_func`:
`-torch.eye(J.shape[0]) + 2 * J`. -/
def misCouplings (n : ℕ) (J : Fin n → Fin n → ℚ) : Fin n → Fin n → ℚ :=
  fun i j => (if i = j then (-1 : ℚ) else 0) + 2 * J i j

/-- The quadratic form `p @ C @ p` computed by the batched matrix products
`torch.bmm((p @ couplings).reshape(...), p.reshape(...))`, for one trial. -/
def quadForm (n : ℕ) (C : Fin n → Fin n → ℚ) (p : Fin n → ℚ) : ℚ :=
  ∑ i, ∑ j, p i * C i j * p j

/-- `customize_expected_func(J, p)` from the MIS notebook:
the quadratic form of `p` with the matrix `-I + 2*J`. -/
def customize_expected_func (n : ℕ) (J : Fin n → Fin n → ℚ) (p : Fin n → ℚ) : ℚ :=
  quadForm n (misCouplings n J) p

/-- `customize_infer_func(J, p)` from the MIS notebook: rounds the marginals
and scores the rounded configuration with `customize_expected_func`. -/
def customize_infer_func (n : ℕ) (J : Fin n → Fin n → ℚ) (p : Fin n → ℚ) :
    (Fin n → ℚ) × ℚ :=
  (fun i => roundQ (p i), customize_expected_func n J (fun i => roundQ (p i)))

/-- The MIS QUBO target stated in the notebook's markdown:
`E = -∑ᵢ xᵢ + 2 ∑ xᵢ Jᵢⱼ xⱼ`. -/
def misTarget (n : ℕ) (J : Fin n → Fin n → ℚ) (x : Fin n → ℚ) : ℚ :=
  (-∑ i, x i) + 2 * ∑ i, ∑ j, x i * J i j * x j

/-! ### Helper lemmas on rounding -/

theorem roundQ_of_unit (q : ℚ) (h0 : 0 ≤ q) (h1 : q ≤ 1) :
    roundQ q = 0 ∨ roundQ q = 1 := by
  unfold roundQ roundHalfEven
  rcases eq_or_lt_of_le h1 with h | h
  · subst h
    norm_num
  · have hf : ⌊q⌋ = 0 := by
      rw [Int.floor_eq_zero_iff]
      exact ⟨h0, h⟩
    simp only [hf]
    split
    · exact Or.inl (by norm_num)
    · split
      · exact Or.inr (by norm_num)
      · norm_num

theorem quadForm_misCouplings (n : ℕ) (J : Fin n → Fin n → ℚ) (x : Fin n → ℚ) :
    quadForm n (misCouplings n J) x
      = (-∑ i, x i * x i) + 2 * ∑ i, ∑ j, x i * J i j * x j := by
  unfold quadForm misCouplings
  have hterm : ∀ i j : Fin n,
      x i * ((if i = j then (-1 : ℚ) else 0) + 2 * J i j) * x j
        = (if j = i then -(x i * x j) else 0) + 2 * (x i * J i j * x j) := by
    intro i j
    by_cases h : i = j
    · subst h; simp; ring
    · rw [if_neg h, if_neg (fun hji => h hji.symm)]; ring
  calc ∑ i, ∑ j, x i * ((if i = j then (-1 : ℚ) else 0) + 2 * J i j) * x j
      = ∑ i, ∑ j, ((if j = i then -(x i * x j) else 0) + 2 * (x i * J i j * x j)) := by
        refine Finset.sum_congr rfl fun i _ => Finset.sum_congr rfl fun j _ => ?_
        exact hterm i j
    _ = ∑ i : Fin n, (-(x i * x i) + ∑ j, 2 * (x i * J i j * x j)) := by
        refine Finset.sum_congr rfl fun i _ => ?_
        rw [Finset.sum_add_distrib, Finset.sum_ite_eq']
        simp
    _ = (-∑ i, x i * x i) + 2 * ∑ i, ∑ j, x i * J i j * x j := by
        rw [Finset.sum_add_distrib]
        rw [Finset.mul_sum]
        congr 1
        · rw [← Finset.sum_neg_distrib]
        · refine Finset.sum_congr rfl fun i _ => ?_
          rw [Finset.mul_sum]

/-- On binary vectors the customized expected-value function agrees with the
notebook's MIS target, since `xᵢ² = xᵢ` on 0/1 entries. -/
theorem mis_expected_eq_target (n : ℕ) (J : Fin n → Fin n → ℚ) (x : Fin n → ℚ)
    (hx : ∀ i, x i = 0 ∨ x i = 1) :
    customize_expected_func n J x = misTarget n J x := by
  unfold customize_expected_func misTarget
  rw [quadForm_misCouplings]
  have hsq : ∀ i, x i * x i = x i := by
    intro i
    rcases hx i with h | h <;> rw [h] <;> ring
  congr 1
  congr 1
  exact Finset.sum_congr rfl fun i _ => hsq i

/-! ### The relaxation solver, modelled from the spec

The FEM library itself (`FEM`, `set_up_solver`, `solve`, `read_graph`) is not
part of the provided sources; only the notebooks that call it are.  The
definitions below are therefore modelled from the specification's words. -/

/-- Modelled from the spec: the solver configuration surface
(`set_up_solver` arguments), with the hyperparameters the claims need.
The optimizer and gradient mode are abstracted by the gradient function
and update rule passed to `solve`. -/
structure SolverConfig where
  num_trials : ℕ
  num_steps : ℕ
  betamin : ℚ
  betamax : ℚ
  learning_rate : ℚ
  discretization : Bool
deriving Repr, DecidableEq

/-- Modelled from the spec: a deterministic pseudo-random stream derived from
the seed (the library's random initialization is not under src). -/
def lcgNext (s : ℕ) : ℕ := (1103515245 * s + 12345) % 4294967296

/-- The `k`-fold iterate of the pseudo-random step. -/
def lcgIter (s : ℕ) : ℕ → ℕ
  | 0 => s
  | k + 1 => lcgNext (lcgIter s k)

/-- Modelled from the spec: one initial marginal value, a random perturbation
around `1/2` drawn from the pseudo-random state `s`. -/
def initEntry (s : ℕ) : ℚ :=
  1/2 + ((((s % 201 : ℕ) : ℤ) - 100 : ℤ) : ℚ) / 1000

/-- Modelled from the spec: the initial trial batch — `T` independent marginal
vectors of length `n`, each entry perturbed around `1/2` from the seed. -/
def initTrials (n T seed : ℕ) : List (List ℚ) :=
  (List.range T).map fun t =>
    (List.range n).map fun k => initEntry (lcgIter seed (t * n + k + 1))

/-- Clipping a single marginal into `[0,1]` after an optimizer update. -/
def clampUnit (q : ℚ) : ℚ := max 0 (min 1 q)

/-- Entrywise clipping of a marginal vector into `[0,1]^n`. -/
def clampVec (p : List ℚ) : List ℚ := p.map clampUnit

/-- Modelled from the spec: one solver iteration.  The free-energy gradient is
evaluated at the rounded marginals when the discretization flag is enabled and
at the marginals themselves otherwise; the marginals then take a gradient step
scaled by the learning rate and are clipped back into `[0,1]`.  The gradient
provider `g` (closed-form or auto-differentiated, at inverse temperature
`beta`) is a parameter. -/
def femStep (g : ℚ → List ℚ → List ℚ) (cfg : SolverConfig) (beta : ℚ)
    (p : List ℚ) : List ℚ :=
  let q := if cfg.discretization then roundVec p else p
  let grad := g beta q
  clampVec (List.zipWith (fun pi gi => pi - cfg.learning_rate * gi) p grad)

/-- Modelled from the spec: the inverse temperature annealed linearly from
`betamin` to `betamax` over the step budget. -/
def betaAt (cfg : SolverConfig) (t : ℕ) : ℚ :=
  if cfg.num_steps ≤ 1 then cfg.betamin
  else cfg.betamin +
    (cfg.betamax - cfg.betamin) * (t : ℚ) / ((cfg.num_steps - 1 : ℕ) : ℚ)

/-- Modelled from the spec: `t` solver iterations applied to one trial's
marginal vector. -/
def runSteps (g : ℚ → List ℚ → List ℚ) (cfg : SolverConfig) :
    ℕ → List ℚ → List ℚ
  | 0, p => p
  | t + 1, p => femStep g cfg (betaAt cfg t) (runSteps g cfg t p)

/-- Modelled from the spec: the solve operation.  Initializes `num_trials`
marginal vectors from the seed, runs the iterative update on every trial,
rounds the final marginals to binary configurations (the registered inference
function's rounding step), and scores each configuration with the registered
expected-value function `score`.  Returns the configurations and their
objective values. -/
def solve (g : ℚ → List ℚ → List ℚ) (score : List ℚ → ℚ)
    (cfg : SolverConfig) (n seed : ℕ) : List (List ℚ) × List ℚ :=
  let trials := initTrials n cfg.num_trials seed
  let finals := trials.map (runSteps g cfg cfg.num_steps)
  let configs := finals.map roundVec
  (configs, configs.map score)

/-! ### Solver invariants -/

theorem clampUnit_mem (q : ℚ) : 0 ≤ clampUnit q ∧ clampUnit q ≤ 1 := by
  unfold clampUnit
  constructor
  · exact le_max_left 0 _
  · exact max_le (by norm_num) (min_le_left 1 q)

theorem clampVec_mem (p : List ℚ) (x : ℚ) (hx : x ∈ clampVec p) :
    0 ≤ x ∧ x ≤ 1 := by
  unfold clampVec at hx
  rcases List.mem_map.mp hx with ⟨y, _, rfl⟩
  exact clampUnit_mem y

theorem femStep_mem (g : ℚ → List ℚ → List ℚ) (cfg : SolverConfig) (beta : ℚ)
    (p : List ℚ) (x : ℚ) (hx : x ∈ femStep g cfg beta p) : 0 ≤ x ∧ x ≤ 1 := by
  unfold femStep at hx
  exact clampVec_mem _ x hx

theorem initEntry_mem (s : ℕ) : 0 ≤ initEntry s ∧ initEntry s ≤ 1 := by
  unfold initEntry
  have h0 : (0 : ℤ) ≤ ((s % 201 : ℕ) : ℤ) := Int.ofNat_nonneg _
  have h200 : ((s % 201 : ℕ) : ℤ) ≤ 200 := by
    have := Nat.mod_lt s (show 0 < 201 by norm_num)
    omega
  have hlo : (-100 : ℚ) ≤ ((((s % 201 : ℕ) : ℤ) - 100 : ℤ) : ℚ) := by
    have : (-100 : ℤ) ≤ (((s % 201 : ℕ) : ℤ) - 100 : ℤ) := by omega
    exact_mod_cast this
  have hhi : ((((s % 201 : ℕ) : ℤ) - 100 : ℤ) : ℚ) ≤ 100 := by
    have : (((s % 201 : ℕ) : ℤ) - 100 : ℤ) ≤ 100 := by omega
    exact_mod_cast this
  constructor <;> nlinarith

theorem initTrials_mem (n T seed : ℕ) (p : List ℚ) (x : ℚ)
    (hp : p ∈ initTrials n T seed) (hx : x ∈ p) : 0 ≤ x ∧ x ≤ 1 := by
  unfold initTrials at hp
  rcases List.mem_map.mp hp with ⟨t, _, rfl⟩
  rcases List.mem_map.mp hx with ⟨k, _, rfl⟩
  exact initEntry_mem _

theorem runSteps_mem (g : ℚ → List ℚ → List ℚ) (cfg : SolverConfig)
    (t : ℕ) (p : List ℚ) (hp : ∀ y ∈ p, 0 ≤ y ∧ y ≤ 1) :
    ∀ x ∈ runSteps g cfg t p, 0 ≤ x ∧ x ≤ 1 := by
  induction t with
  | zero => exact hp
  | succ t ih =>
    intro x hx
    exact femStep_mem g cfg (betaAt cfg t) (runSteps g cfg t p) x hx

theorem roundQ_mem_unit (q : ℚ) (h : 0 ≤ q ∧ q ≤ 1) :
    roundQ q = 0 ∨ roundQ q = 1 :=
  roundQ_of_unit q h.1 h.2

theorem solve_fst (g : ℚ → List ℚ → List ℚ) (score : List ℚ → ℚ)
    (cfg : SolverConfig) (n seed : ℕ) :
    (solve g score cfg n seed).1
      = ((initTrials n cfg.num_trials seed).map
          (runSteps g cfg cfg.num_steps)).map roundVec := rfl

/-! ### Concrete inputs used by the witnesses -/

/-- A trivial gradient provider used only to instantiate the solver model. -/
def gId : ℚ → List ℚ → List ℚ := fun _ p => p

/-- A trivial scoring function used only to instantiate the solver model. -/
def scoreZero : List ℚ → ℚ := fun _ => 0

/-- A small concrete solver configuration (discretization off). -/
def cfgW : SolverConfig := ⟨1, 1, 0, 1, 1, false⟩

/-- A small concrete solver configuration (discretization on). -/
def cfgD : SolverConfig := ⟨1, 1, 0, 1, 1, true⟩

/-! ### Claims about the solve operation -/

/-- C1: for every problem instance and every solver configuration, with or
without discretization, every configuration vector returned by the solve
operation is binary — each entry is 0 or 1. -/
theorem C1_solve_configurations_binary (g : ℚ → List ℚ → List ℚ)
    (score : List ℚ → ℚ) (cfg : SolverConfig) (n seed : ℕ)
    (c : List ℚ) (x : ℚ)
    (hc : c ∈ (solve g score cfg n seed).1) (hx : x ∈ c) :
    x = 0 ∨ x = 1 := by
  rw [solve_fst] at hc
  rcases List.mem_map.mp hc with ⟨f, hf, rfl⟩
  rcases List.mem_map.mp hf with ⟨p0, hp0, rfl⟩
  unfold roundVec at hx
  rcases List.mem_map.mp hx with ⟨y, hy, rfl⟩
  refine roundQ_mem_unit y ?_
  exact runSteps_mem g cfg cfg.num_steps p0
    (fun z hz => initTrials_mem n cfg.num_trials seed p0 z hp0 hz) y hy

theorem solve_cfgW_eval : (solve gId scoreZero cfgW 1 0).1 = [[0]] := by
  rw [solve_fst]
  simp only [cfgW, initTrials, List.range_succ, List.range_zero,
    List.nil_append, List.map_cons, List.map_nil]
  norm_num [runSteps, femStep, gId, clampVec, clampUnit, roundVec, roundQ,
    roundHalfEven]

/-- Witness for C1 at a concrete instance. -/
theorem C1_solve_configurations_binary_witness : (0 : ℚ) = 0 ∨ (0 : ℚ) = 1 :=
  C1_solve_configurations_binary gId scoreZero cfgW 1 0 [0] 0
    (by rw [solve_cfgW_eval]; exact List.mem_singleton.mpr rfl)
    (List.mem_singleton.mpr rfl)

/-- C2: the solve operation returns exactly as many configurations, and
exactly as many objective values, as the number of trials requested in the
solver configuration. -/
theorem C2_solve_trial_counts (g : ℚ → List ℚ → List ℚ)
    (score : List ℚ → ℚ) (cfg : SolverConfig) (n seed : ℕ) :
    (solve g score cfg n seed).1.length = cfg.num_trials ∧
    (solve g score cfg n seed).2.length = cfg.num_trials := by
  constructor <;> simp [solve, initTrials]

/-- C5: after every iteration's optimizer update the trial's marginal vector
lies in `[0,1]^n` — the clipping step applied after each gradient update
preserves the invariant, for every step of a solve call. -/
theorem C5_clipping_invariant (g : ℚ → List ℚ → List ℚ) (cfg : SolverConfig)
    (beta : ℚ) (p p0 : List ℚ) (t : ℕ) (x : ℚ) :
    (x ∈ femStep g cfg beta p → 0 ≤ x ∧ x ≤ 1) ∧
    (x ∈ runSteps g cfg (t + 1) p0 → 0 ≤ x ∧ x ≤ 1) := by
  constructor
  · exact femStep_mem g cfg beta p x
  · intro hx
    exact femStep_mem g cfg (betaAt cfg t) (runSteps g cfg t p0) x hx

theorem femStep_cfgW_eval : femStep gId cfgW 0 [2] = [0] := by
  norm_num [femStep, cfgW, gId, clampVec, clampUnit]

/-- Witness for C5 at a concrete instance. -/
theorem C5_clipping_invariant_witness :
    (0 ≤ (0 : ℚ) ∧ (0 : ℚ) ≤ 1) ∧ (0 ≤ (0 : ℚ) ∧ (0 : ℚ) ≤ 1) :=
  ⟨(C5_clipping_invariant gId cfgW 0 [2] [2] 0 0).1
     (by rw [femStep_cfgW_eval]; exact List.mem_singleton.mpr rfl),
   (C5_clipping_invariant gId cfgW 0 [2] [2] 0 0).2
     (by show (0 : ℚ) ∈ femStep gId cfgW (betaAt cfgW 0) (runSteps gId cfgW 0 [2])
         have : betaAt cfgW 0 = 0 := by norm_num [betaAt, cfgW]
         rw [runSteps, this, femStep_cfgW_eval]
         exact List.mem_singleton.mpr rfl)⟩

/-- C6: when the discretization flag is enabled the gradient is evaluated at
the rounded marginals `round(p)`; when it is disabled the gradient is
evaluated at `p` itself.  The rest of the update (step and clipping) is the
same in both modes. -/
theorem C6_discretization_grad_input (g : ℚ → List ℚ → List ℚ)
    (cfg : SolverConfig) (beta : ℚ) (p : List ℚ) :
    (cfg.discretization = true →
      femStep g cfg beta p
        = clampVec (List.zipWith (fun pi gi => pi - cfg.learning_rate * gi)
            p (g beta (roundVec p)))) ∧
    (cfg.discretization = false →
      femStep g cfg beta p
        = clampVec (List.zipWith (fun pi gi => pi - cfg.learning_rate * gi)
            p (g beta p))) := by
  constructor <;> intro h <;> simp [femStep, h]

/-- Witness for C6 at a concrete instance. -/
theorem C6_discretization_grad_input_witness :
    femStep gId cfgD 0 [1/2]
      = clampVec (List.zipWith (fun pi gi => pi - cfgD.learning_rate * gi)
          [1/2] (gId 0 (roundVec [1/2]))) ∧
    femStep gId cfgW 0 [1/2]
      = clampVec (List.zipWith (fun pi gi => pi - cfgW.learning_rate * gi)
          [1/2] (gId 0 [1/2])) :=
  ⟨(C6_discretization_grad_input gId cfgD 0 [1/2]).1 rfl,
   (C6_discretization_grad_input gId cfgW 0 [1/2]).2 rfl⟩

/-- C9: the solve operation is deterministic given its random seed — the same
seed with the same configuration, gradient provider and scoring function
yields identical configurations and objective values. -/
theorem C9_solve_deterministic (g : ℚ → List ℚ → List ℚ)
    (score : List ℚ → ℚ) (cfg : SolverConfig) (n : ℕ) (s1 s2 : ℕ)
    (h : s1 = s2) :
    solve g score cfg n s1 = solve g score cfg n s2 := by
  rw [h]

/-- Witness for C9 at a concrete instance. -/
theorem C9_solve_deterministic_witness :
    solve gId scoreZero cfgW 1 7 = solve gId scoreZero cfgW 1 7 :=
  C9_solve_deterministic gId scoreZero cfgW 1 7 7 rfl

/-! ### The instance loader, modelled from the spec -/

/-- Modelled from the spec: the load-time error for malformed or inconsistent
instance data (`read_graph`'s `FormatError`). -/
inductive FormatError where
  | countMismatch
  | indexOutOfRange
deriving Repr, DecidableEq

/-- Modelled from the spec: the parsed text of an instance file — the declared
node and edge counts from the first line, and the coupling lines `i j weight`
that follow. -/
structure RawGraph where
  n_nodes : ℕ
  n_edges : ℕ
  lines : List (ℕ × ℕ × ℚ)
deriving Repr, DecidableEq

/-- Modelled from the spec: a coupling line references only valid node
indices, given the configured index base (0- or 1-indexed). -/
def lineInRange (base n : ℕ) (l : ℕ × ℕ × ℚ) : Bool :=
  decide (base ≤ l.1) && decide (l.1 < base + n) &&
    decide (base ≤ l.2.1) && decide (l.2.1 < base + n)

/-- Modelled from the spec: `read_graph`, the instance loader.  Validates the
declared edge count against the coupling lines and every referenced node
index against the valid range before any solving begins; on well-formed input
it returns the node count, interaction count and couplings. -/
def read_graph (base : ℕ) (raw : RawGraph) :
    Except FormatError (ℕ × ℕ × List (ℕ × ℕ × ℚ)) :=
  if raw.lines.length ≠ raw.n_edges then .error .countMismatch
  else if raw.lines.all (lineInRange base raw.n_nodes) then
    .ok (raw.n_nodes, raw.n_edges, raw.lines)
  else .error .indexOutOfRange

/-- C7: loading fails with a `FormatError` exactly when the declared counts
are inconsistent with the coupling lines that follow or some line references
a node index outside the valid range for the configured index base, and it
succeeds (returning the validated instance) on every well-formed input. -/
theorem C7_read_graph_format_errors (base : ℕ) (raw : RawGraph) :
    ((∃ v, read_graph base raw = .ok v) ↔
      (raw.lines.length = raw.n_edges ∧
        ∀ l ∈ raw.lines, lineInRange base raw.n_nodes l = true)) ∧
    ((∃ e, read_graph base raw = .error e) ↔
      ¬(raw.lines.length = raw.n_edges ∧
        ∀ l ∈ raw.lines, lineInRange base raw.n_nodes l = true)) := by
  by_cases hlen : raw.lines.length = raw.n_edges
  · by_cases hall : raw.lines.all (lineInRange base raw.n_nodes) = true
    · have hread : read_graph base raw
          = .ok (raw.n_nodes, raw.n_edges, raw.lines) := by
        simp [read_graph, hlen, hall]
      rw [hread]
      have hwf : ∀ l ∈ raw.lines, lineInRange base raw.n_nodes l = true :=
        List.all_eq_true.mp hall
      constructor
      · exact ⟨fun _ => ⟨hlen, hwf⟩, fun _ => ⟨_, rfl⟩⟩
      · constructor
        · rintro ⟨e, he⟩
          cases he
        · intro h
          exact absurd ⟨hlen, hwf⟩ h
    · have hread : read_graph base raw = .error .indexOutOfRange := by
        simp [read_graph, hlen, hall]
      rw [hread]
      have hnwf : ¬∀ l ∈ raw.lines, lineInRange base raw.n_nodes l = true := by
        rw [← List.all_eq_true]
        exact hall
      constructor
      · constructor
        · rintro ⟨v, hv⟩
          cases hv
        · rintro ⟨_, hwf'⟩
          exact absurd hwf' hnwf
      · exact ⟨fun _ => fun h => hnwf h.2, fun _ => ⟨_, rfl⟩⟩
  · have hread : read_graph base raw = .error .countMismatch := by
      simp [read_graph, hlen]
    rw [hread]
    constructor
    · constructor
      · rintro ⟨v, hv⟩
        cases hv
      · rintro ⟨h1, _⟩
        exact absurd h1 hlen
    · exact ⟨fun _ => fun h => hlen h.1, fun _ => ⟨_, rfl⟩⟩

/-! ### The across-trials reduction (source-embedded from the notebooks) -/

/-- `result.min()` over the per-trial objective values (MIS notebook). -/
def bestMin : List ℚ → ℚ
  | [] => 0
  | r :: rs => rs.foldl min r

/-- `result.max()` over the per-trial objective values (Max-Cut notebook). -/
def bestMax : List ℚ → ℚ
  | [] => 0
  | r :: rs => rs.foldl max r

/-- `torch.unique(config[torch.argwhere(result==result.min())], dim=0)`:
the deduplicated configurations achieving the minimum objective value. -/
def optimalConfigsMin (configs : List (List ℚ)) (result : List ℚ) :
    List (List ℚ) :=
  ((configs.zip result).filterMap
    (fun cr => if cr.2 = bestMin result then some cr.1 else none)).dedup

/-- The deduplicated configurations achieving the maximum objective value
(`torch.argwhere(result==result.max())`). -/
def optimalConfigsMax (configs : List (List ℚ)) (result : List ℚ) :
    List (List ℚ) :=
  ((configs.zip result).filterMap
    (fun cr => if cr.2 = bestMax result then some cr.1 else none)).dedup

theorem foldl_min_mem (rs : List ℚ) (r : ℚ) : rs.foldl min r ∈ r :: rs := by
  induction rs generalizing r with
  | nil => exact List.mem_singleton.mpr rfl
  | cons x xs ih =>
    rw [List.foldl_cons]
    rcases List.mem_cons.mp (ih (min r x)) with h | h
    · rcases min_choice r x with hm | hm
      · exact List.mem_cons.mpr (Or.inl (h.trans hm))
      · exact List.mem_cons.mpr (Or.inr (List.mem_cons.mpr (Or.inl (h.trans hm))))
    · exact List.mem_cons.mpr (Or.inr (List.mem_cons.mpr (Or.inr h)))

theorem foldl_min_le (rs : List ℚ) (r : ℚ) :
    ∀ a ∈ r :: rs, rs.foldl min r ≤ a := by
  induction rs generalizing r with
  | nil =>
    intro a ha
    rw [List.mem_singleton.mp ha]
    exact le_refl _
  | cons x xs ih =>
    intro a ha
    rw [List.foldl_cons]
    rcases List.mem_cons.mp ha with h | h
    · rw [h]
      exact (ih (min r x) _ (List.mem_cons_self _ _)).trans (min_le_left r x)
    · rcases List.mem_cons.mp h with h' | h'
      · rw [h']
        exact (ih (min r x) _ (List.mem_cons_self _ _)).trans (min_le_right r x)
      · exact ih (min r x) a (List.mem_cons.mpr (Or.inr h'))

theorem foldl_max_mem (rs : List ℚ) (r : ℚ) : rs.foldl max r ∈ r :: rs := by
  induction rs generalizing r with
  | nil => exact List.mem_singleton.mpr rfl
  | cons x xs ih =>
    rw [List.foldl_cons]
    rcases List.mem_cons.mp (ih (max r x)) with h | h
    · rcases max_choice r x with hm | hm
      · exact List.mem_cons.mpr (Or.inl (h.trans hm))
      · exact List.mem_cons.mpr (Or.inr (List.mem_cons.mpr (Or.inl (h.trans hm))))
    · exact List.mem_cons.mpr (Or.inr (List.mem_cons.mpr (Or.inr h)))

theorem foldl_max_ge (rs : List ℚ) (r : ℚ) :
    ∀ a ∈ r :: rs, a ≤ rs.foldl max r := by
  induction rs generalizing r with
  | nil =>
    intro a ha
    rw [List.mem_singleton.mp ha]
    exact le_refl _
  | cons x xs ih =>
    intro a ha
    rw [List.foldl_cons]
    rcases List.mem_cons.mp ha with h | h
    · rw [h]
      exact (le_max_left r x).trans (ih (max r x) _ (List.mem_cons_self _ _))
    · rcases List.mem_cons.mp h with h' | h'
      · rw [h']
        exact (le_max_right r x).trans (ih (max r x) _ (List.mem_cons_self _ _))
      · exact ih (max r x) a (List.mem_cons.mpr (Or.inr h'))

theorem mem_optimalConfigsMin (configs : List (List ℚ)) (result : List ℚ)
    (c : List ℚ) :
    c ∈ optimalConfigsMin configs result ↔
      (c, bestMin result) ∈ configs.zip result := by
  unfold optimalConfigsMin
  rw [List.mem_dedup, List.mem_filterMap]
  constructor
  · rintro ⟨cr, hcr, hsome⟩
    by_cases h : cr.2 = bestMin result
    · rw [if_pos h] at hsome
      rw [Option.some_inj] at hsome
      rw [← hsome, ← h, Prod.mk.eta]
      exact hcr
    · rw [if_neg h] at hsome
      cases hsome
  · intro h
    exact ⟨(c, bestMin result), h, by rw [if_pos rfl]⟩

theorem mem_optimalConfigsMax (configs : List (List ℚ)) (result : List ℚ)
    (c : List ℚ) :
    c ∈ optimalConfigsMax configs result ↔
      (c, bestMax result) ∈ configs.zip result := by
  unfold optimalConfigsMax
  rw [List.mem_dedup, List.mem_filterMap]
  constructor
  · rintro ⟨cr, hcr, hsome⟩
    by_cases h : cr.2 = bestMax result
    · rw [if_pos h] at hsome
      rw [Option.some_inj] at hsome
      rw [← hsome, ← h, Prod.mk.eta]
      exact hcr
    · rw [if_neg h] at hsome
      cases hsome
  · intro h
    exact ⟨(c, bestMax result), h, by rw [if_pos rfl]⟩

/-- C8: the reduction reports the best objective value across trials — the
minimum for a minimization formulation (MIS QUBO), the maximum for a
maximization problem (Max-Cut) — together with the deduplicated set of
configurations achieving that value. -/
theorem C8_reduction_best_value_dedup (configs : List (List ℚ))
    (result : List ℚ) (h : result ≠ []) :
    bestMin result ∈ result ∧ (∀ r ∈ result, bestMin result ≤ r) ∧
    bestMax result ∈ result ∧ (∀ r ∈ result, r ≤ bestMax result) ∧
    (optimalConfigsMin configs result).Nodup ∧
    (∀ c, c ∈ optimalConfigsMin configs result ↔
      (c, bestMin result) ∈ configs.zip result) ∧
    (optimalConfigsMax configs result).Nodup ∧
    (∀ c, c ∈ optimalConfigsMax configs result ↔
      (c, bestMax result) ∈ configs.zip result) := by
  rcases result with _ | ⟨r, rs⟩
  · exact absurd rfl h
  · refine ⟨foldl_min_mem rs r, foldl_min_le rs r, foldl_max_mem rs r,
      foldl_max_ge rs r, List.nodup_dedup _,
      mem_optimalConfigsMin configs (r :: rs),
      List.nodup_dedup _,
      mem_optimalConfigsMax configs (r :: rs)⟩

/-- Witness for C8 at a concrete instance. -/
theorem C8_reduction_best_value_dedup_witness :
    bestMin [(3 : ℚ), 5] ∈ [(3 : ℚ), 5] :=
  (C8_reduction_best_value_dedup [[1], [0]] [3, 5]
    (List.cons_ne_nil _ _)).1

/-! ### C10: the customized MIS functions score the MIS QUBO energy -/

/-- C10: for every coupling matrix `J` and every binary vector `x`, the
customized MIS expected-value function `xᵀ(−I + 2J)x` equals the MIS target
`E = −Σᵢ xᵢ + 2·xᵀJx` (because `xᵢ² = xᵢ` on binary entries); hence the score
the inference function assigns to the rounded configuration of marginals in
`[0,1]^n` is exactly the MIS QUBO energy of that configuration. -/
theorem C10_customize_expected_is_mis_energy (n : ℕ) (J : Fin n → Fin n → ℚ)
    (x p : Fin n → ℚ) (hx : ∀ i, x i = 0 ∨ x i = 1)
    (hp : ∀ i, 0 ≤ p i ∧ p i ≤ 1) :
    customize_expected_func n J x = misTarget n J x ∧
    (customize_infer_func n J p).2 = misTarget n J (fun i => roundQ (p i)) := by
  refine ⟨mis_expected_eq_target n J x hx, ?_⟩
  show customize_expected_func n J (fun i => roundQ (p i)) = _
  exact mis_expected_eq_target n J _
    (fun i => roundQ_of_unit (p i) (hp i).1 (hp i).2)

/-- A concrete coupling matrix for the witnesses (one edge on two nodes). -/
def Jc : Fin 2 → Fin 2 → ℚ := fun i j => if i = j then 0 else 1

/-- A concrete binary configuration for the witnesses. -/
def xc : Fin 2 → ℚ := fun i => if i = 0 then 1 else 0

/-- A concrete marginal vector in `[0,1]^2` for the witnesses. -/
def pc : Fin 2 → ℚ := fun i => if i = 0 then 3/4 else 1/4

/-- Witness for C10 at a concrete instance. -/
theorem C10_customize_expected_is_mis_energy_witness :
    customize_expected_func 2 Jc xc = misTarget 2 Jc xc ∧
    (customize_infer_func 2 Jc pc).2 = misTarget 2 Jc (fun i => roundQ (pc i)) :=
  C10_customize_expected_is_mis_energy 2 Jc xc pc
    (by intro i; fin_cases i <;> norm_num [xc])
    (by intro i; fin_cases i <;> norm_num [pc])

/-! ### C4: the manual-gradient path against the auto-differentiation path -/

/-- The quadratic energy expression of the problem objective, written once
over an arbitrary commutative ring: the very same expression is evaluated on
rationals by the solver and on dual numbers by forward-mode automatic
differentiation. -/
def quadEnergy {R : Type} [CommRing R] (n : ℕ) (C : Fin n → Fin n → R)
    (p : Fin n → R) : R :=
  ∑ i, ∑ j, p i * C i j * p j

/-- The dual-number seed for differentiating along coordinate `k`: the point
`p` with an `ε`-perturbation in the `k`-th coordinate. -/
def dualSeed (n : ℕ) (p : Fin n → ℚ) (k : Fin n) : Fin n → DualNumber ℚ :=
  fun i => TrivSqZeroExt.inl (p i) + (if i = k then DualNumber.eps else 0)

/-- Modelled from the spec: the auto-differentiation gradient path
(`manual_grad=False`, whose implementation is not under src) — the partial
derivative of the energy along coordinate `k`, read off as the ε-coefficient
of the energy expression evaluated on dual numbers. -/
def autoGradEnergy (n : ℕ) (C : Fin n → Fin n → ℚ) (p : Fin n → ℚ)
    (k : Fin n) : ℚ :=
  (quadEnergy n (fun i j => TrivSqZeroExt.inl (C i j)) (dualSeed n p k)).snd

/-- Modelled from the spec: the closed-form ("manual") gradient path
(`manual_grad=True`, whose implementation is not under src) — the explicit
expression `2·(C p)ₖ` for the gradient of the quadratic energy of a symmetric
coupling matrix. -/
def manualGradEnergy (n : ℕ) (C : Fin n → Fin n → ℚ) (p : Fin n → ℚ)
    (k : Fin n) : ℚ :=
  2 * ∑ j, C k j * p j

theorem snd_dualSeed_term (n : ℕ) (C : Fin n → Fin n → ℚ) (p : Fin n → ℚ)
    (k i j : Fin n) :
    (dualSeed n p k i * TrivSqZeroExt.inl (C i j) * dualSeed n p k j).snd
      = (if i = k then C i j * p j else 0) + (if j = k then p i * C i j else 0) := by
  by_cases hi : i = k <;> by_cases hj : j = k <;>
    simp [dualSeed, hi, hj] <;> ring

/-- C4: for every coupling matrix, marginal vector and coordinate, the
closed-form manual gradient equals the gradient obtained by automatic
differentiation of the same energy expression, when the coupling matrix is
symmetric — the two gradient providers are interchangeable. -/
theorem C4_manual_grad_eq_autodiff (n : ℕ) (C : Fin n → Fin n → ℚ)
    (p : Fin n → ℚ) (k : Fin n) (hsym : ∀ i j, C i j = C j i) :
    manualGradEnergy n C p k = autoGradEnergy n C p k := by
  unfold manualGradEnergy autoGradEnergy quadEnergy
  rw [TrivSqZeroExt.snd_sum]
  have hrow : ∀ i : Fin n,
      (∑ j, dualSeed n p k i * TrivSqZeroExt.inl (C i j) * dualSeed n p k j).snd
        = (if i = k then ∑ j, C i j * p j else 0) + p i * C i k := by
    intro i
    rw [TrivSqZeroExt.snd_sum]
    have : ∀ j : Fin n,
        (dualSeed n p k i * TrivSqZeroExt.inl (C i j) * dualSeed n p k j).snd
          = (if i = k then C i j * p j else 0) + (if j = k then p i * C i j else 0) :=
      snd_dualSeed_term n C p k i
    rw [Finset.sum_congr rfl fun j _ => this j, Finset.sum_add_distrib]
    congr 1
    · split
      · rfl
      · simp
    · rw [Finset.sum_ite_eq']
      simp
  rw [Finset.sum_congr rfl fun i _ => hrow i, Finset.sum_add_distrib,
    Finset.sum_ite_eq']
  have hcol : (∑ i, p i * C i k) = ∑ j, C k j * p j := by
    refine Finset.sum_congr rfl fun i _ => ?_
    rw [hsym i k]
    ring
  rw [hcol]
  simp
  ring

/-- Witness for C4 at a concrete instance. -/
theorem C4_manual_grad_eq_autodiff_witness :
    manualGradEnergy 2 Jc pc 0 = autoGradEnergy 2 Jc pc 0 :=
  C4_manual_grad_eq_autodiff 2 Jc pc 0
    (by intro i j; fin_cases i <;> fin_cases j <;> norm_num [Jc])

end FEMSpec
